import Mathlib

/-!
Verification development for the psycho-dice-namic repository.

The Python sources are shallowly embedded as Lean definitions:
  * `src/dice.py`   — the `Combo` data class and `ComboDetector.find_combos`;
  * `src/game_engine.py` — `GameEngine.calculate_damage`, `GameEngine.roll_dice`,
    `GameEngine._roll_live_pool`, `GameEngine._bank_from_live_pool`,
    `GameEngine.play_debate`;
  * `src/archetypes.py` — the `Player` data class with `take_damage` / `heal`
    and the archetype special-effect aggregation.

Python `int` is embedded as `Int`; Python `None` (both blank faces and the
absent-die marker in pool entries) as `Option.none`.  Python's `random.choice`
is embedded as a pluggable pick stream `rng : Nat → Nat` together with a
running counter: the n-th call to `roll` picks face `rng n % faces.length`.
Players are embedded without the `emotions` list: every run modelled here
corresponds to players constructed with `emotions = []` (the default from
`Archetype.create_player`), for which each emotion-hook loop in
`play_debate` iterates over an empty list and is a no-op.
-/

/-- Python `max(l, key=key)` for a non-empty list `b :: l`: fold that replaces
the current best exactly when the new element's key is strictly greater, so
ties keep the earliest element. -/
def pyMaxFold {α κ : Type} [LinearOrder κ] (key : α → κ) (b : α) (l : List α) : α :=
  l.foldl (fun acc x => if key acc < key x then x else acc) b

/-- `Combo` from `src/dice.py`: name, dice values, echo-die bonus, and the
damage field that `__post_init__` derives as the sum of the dice values. -/
structure Combo where
  name : String
  dice : List Int
  echo_dice : Int
  damage : Int
deriving DecidableEq, Repr

/-- `Combo(name, dice, echo_dice=echo)`: `__post_init__` sets `damage = sum(dice)`. -/
def mkCombo (nm : String) (dice : List Int) (echo : Int) : Combo :=
  ⟨nm, dice, echo, dice.sum⟩

/-- Re-derive the damage after mutating a combo's dice list, as the engine's
`best_combo.damage = sum(best_combo.dice)` lines do. -/
def setDice (c : Combo) (dice : List Int) : Combo :=
  { c with dice := dice, damage := dice.sum }

/-- One step of building the Python `counts` dict: bump the count of `v`,
preserving first-occurrence (insertion) order of the keys. -/
def addCount : List (Int × Nat) → Int → List (Int × Nat)
  | [], v => [(v, 1)]
  | (k, c) :: rest, v =>
    if k = v then (k, c + 1) :: rest else (k, c) :: addCount rest v

/-- The `counts` dict of `find_combos`: value ↦ multiplicity, keys in
first-occurrence order (Python dicts preserve insertion order, and
`counts.items()` iterates in that order). -/
def countsOf (l : List Int) : List (Int × Nat) := l.foldl addCount []

/-- `sorted(set(dice_values))`. -/
def sortedDistinct (l : List Int) : List Int := l.dedup.insertionSort (· ≤ ·)

/-- Python `max(dice_values)` for the non-empty lists it is applied to. -/
def pyMaxInt (l : List Int) : Int :=
  match l with
  | [] => 0
  | x :: xs => xs.foldl max x

/-- Python `min(best_combo.dice)` for the non-empty lists it is applied to. -/
def pyMinInt (l : List Int) : Int :=
  match l with
  | [] => 0
  | x :: xs => xs.foldl min x

/-- The `add_straights(min_len, name, echo)` helper of `find_combos`: for each
window start `i` in the sorted distinct values, emit a straight candidate when
the next `min_len` entries are consecutive. -/
def straightCands (dice_values : List Int) (min_len : Nat) (nm : String) (echo : Int) :
    List Combo :=
  if min_len ≤ dice_values.length then
    let sv := sortedDistinct dice_values
    (List.range (sv.length - (min_len - 1))).filterMap (fun i =>
      if (List.range min_len).all (fun j => sv.getD (i + j) 0 = sv.getD i 0 + (j : Int)) then
        some (mkCombo nm ((List.range min_len).map (fun j : Nat => sv.getD i 0 + (j : Int))) echo)
      else none)
  else []

/-- The `for value, count in counts.items(): if count >= k` candidate loops
(six/five/four-of-a-kind, triplet, pair). -/
def ofKindCands (counts : List (Int × Nat)) (k : Nat) (nm : String) (echo : Int) :
    List Combo :=
  counts.filterMap (fun vc =>
    if k ≤ vc.2 then some (mkCombo nm (List.replicate k vc.1) echo) else none)

/-- The two-distinct-triplets candidate: the two highest triplet values
(`sorted(trip_values, reverse=True)[:2]`). -/
def twoTripletsCands (counts : List (Int × Nat)) : List Combo :=
  let trip_values := counts.filterMap (fun vc => if 3 ≤ vc.2 then some vc.1 else none)
  if 2 ≤ trip_values.length then
    let ts := (trip_values.insertionSort (· ≥ ·)).take 2
    [mkCombo "Surprising"
      (List.replicate 3 (ts.getD 0 0) ++ List.replicate 3 (ts.getD 1 0)) 1]
  else []

/-- The quadruplet-plus-distinct-pair candidates, in the nested-loop order
`for qv in quad_values: for pv in pair_values`. -/
def quadPairCands (counts : List (Int × Nat)) : List Combo :=
  let quad_values := counts.filterMap (fun vc => if 4 ≤ vc.2 then some vc.1 else none)
  let pair_values := counts.filterMap (fun vc => if 2 ≤ vc.2 then some vc.1 else none)
  quad_values.flatMap (fun qv => pair_values.filterMap (fun pv =>
    if pv ≠ qv then
      some (mkCombo "Surprising" (List.replicate 4 qv ++ List.replicate 2 pv) 1)
    else none))

/-- The filtering prologue of `find_combos`:
`[d for d in dice_values if d is not None and d != -1]`. -/
def diceValues (input : List (Option Int)) : List Int :=
  (input.filterMap id).filter (fun d => d ≠ -1)

/-- The candidate list of `find_combos`, in the exact generation order of the
source: six-of-a-kind, six-straight, five-of-a-kind, five-straight, two
triplets, quad+pair, four-of-a-kind, 4-straight, 3-straight, triplet, pair,
single highest value. -/
def candidatesOf (dv : List Int) : List Combo :=
  let counts := countsOf dv
  ofKindCands counts 6 "Astonishing" 4
    ++ straightCands dv 6 "Surprising" 1
    ++ ofKindCands counts 5 "Distressing" 3
    ++ straightCands dv 5 "Solid" 0
    ++ twoTripletsCands counts
    ++ quadPairCands counts
    ++ ofKindCands counts 4 "Shocking" 2
    ++ straightCands dv 4 "Solid" 0
    ++ straightCands dv 3 "Solid" 0
    ++ ofKindCands counts 3 "Surprising" 1
    ++ ofKindCands counts 2 "Solid" 0
    ++ [mkCombo "Solid" [pyMaxInt dv] 0]

/-- The scoring key of `find_combos`:
`(len(c.dice) + c.echo_dice, len(c.dice), c.damage)`, compared as a Python
tuple, i.e. lexicographically. -/
def score (c : Combo) : ℤ ×ₗ ℤ ×ₗ ℤ :=
  toLex ((c.dice.length : ℤ) + c.echo_dice, toLex ((c.dice.length : ℤ), c.damage))

/-- `ComboDetector.find_combos` (src/dice.py): filter out blanks, generate the
candidates, and return the singleton list holding `max(candidates, key=score)`
(first maximal candidate wins ties), or `[]` for an empty filtered input. -/
def find_combos (input : List (Option Int)) : List Combo :=
  let dv := diceValues input
  if dv.isEmpty then []
  else
    match candidatesOf dv with
    | [] => []
    | c :: cs => [pyMaxFold score c cs]

/-- The two-pointer sweep of `GameEngine.calculate_damage` on the two
ascending-sorted value lists: for each attacker value, skip (permanently) the
defenders strictly below it; if a defender remains it blocks the attack and is
consumed, otherwise the attacker value is added to the unblocked damage (once
the defenders run out, every remaining attacker value is added). -/
def dam_aux : List Int → List Int → Int
  | [], _ => 0
  | a :: as, D =>
    match D.dropWhile (fun d => d < a) with
    | [] => a + dam_aux as []
    | _ :: rest => dam_aux as rest

/-- `resolve_damage(attacker_values, defender_values)` (the §6 interface name
for the body of `GameEngine.calculate_damage`): sort both multisets ascending
and run the greedy blocking sweep. -/
def resolve_damage (attackers defenders : List Int) : Int :=
  dam_aux (attackers.insertionSort (· ≤ ·)) (defenders.insertionSort (· ≤ ·))

/-- `GameEngine.calculate_damage`: flatten both sides' insult dice lists in
order and resolve the damage on the flattened value lists. -/
def calculate_damage (attacker_insults defender_insults : List Combo) : Int :=
  resolve_damage (attacker_insults.flatMap Combo.dice)
    (defender_insults.flatMap Combo.dice)

/-- `MAX_HEALTH` from `src/archetypes.py`. -/
def MAX_HEALTH : Int := 12

/-- The per-die behaviour tags of `src/dice.py` (one per concrete `Dice`
subclass; `aporic` and `nausea` are the renamed subclasses of
`catastrophize` and `ridicule`). -/
inductive DieKind where
  | normal | bliss | comedown | highMinded | spite | inebriation | grounded
  | nostalgia | penance | acedic | pilfer | catastrophize | aporic | ridicule
  | nausea | choleric | melancholic | phlegmatic | sanguine | blank
  | apathetic | abyssal | special
deriving DecidableEq, Repr

/-- A die object: class tag, display name, faces (a `none` face is a blank
face), card colour (humor dice only) and the mutable `last_value` slot. -/
structure Die where
  kind : DieKind
  name : String
  faces : List (Option Int)
  color : Option String := none
  lastValue : Option Int := none
deriving DecidableEq, Repr

/-- `Dice.can_roll`: true for every class except `BlankDice`. -/
def Die.canRoll (d : Die) : Bool := d.kind ≠ DieKind.blank

/-- The special-effect dicts returned by `Dice.special_effect`, flattened into
one record (a missing key is 0, matching `effects.get(k, 0)`). -/
structure Effects where
  heal : Int := 0
  damage : Int := 0
  forgiveness_tokens : Int := 0
  opp_damage : Int := 0
  opp_neurosis : Int := 0
  self_regret : Int := 0
  force_fumble : Int := 0
  ridicule_six : Int := 0
  pilfer_six : Int := 0
  opp_regret : Int := 0
deriving DecidableEq, Repr

/-- Pointwise merge of effect dicts:
`effects[k] = effects.get(k, 0) + v` for every key. -/
def Effects.add (a b : Effects) : Effects :=
  ⟨a.heal + b.heal, a.damage + b.damage,
   a.forgiveness_tokens + b.forgiveness_tokens, a.opp_damage + b.opp_damage,
   a.opp_neurosis + b.opp_neurosis, a.self_regret + b.self_regret,
   a.force_fumble + b.force_fumble, a.ridicule_six + b.ridicule_six,
   a.pilfer_six + b.pilfer_six, a.opp_regret + b.opp_regret⟩

/-- `Player` from `src/archetypes.py`, restricted to the fields read or
written along the `play_debate` path; the `emotions` list is not modelled
(players are embedded with no emotion hooks). -/
structure Player where
  name : String
  health : Int := MAX_HEALTH
  forgiveness_tokens : Int := 0
  neurosis_tokens : Int := 0
  regret_tokens : Int := 0
  bust_protection : Bool := false
  penance_double_active : Bool := false
  pending_pilfer_next_round : Bool := false
  pending_echo_values : List (Option Int) := []
  dice : List Die := []
deriving DecidableEq, Repr

/-- `Player.take_damage`: clamp to the available health, return the new
player state together with the actual damage taken. -/
def Player.take_damage (p : Player) (amount : Int) : Player × Int :=
  let actual := min amount p.health
  ({ p with health := p.health - actual }, actual)

/-- `Player.heal`: clamp to `MAX_HEALTH`, return the new player state together
with the actual healing done. -/
def Player.heal (p : Player) (amount : Int) : Player × Int :=
  let actual := min amount (MAX_HEALTH - p.health)
  ({ p with health := p.health + actual }, actual)

/-- `Player.add_neurosis_tokens` (adds only when the amount is positive). -/
def Player.add_neurosis_tokens (p : Player) (amount : Int) : Player :=
  if amount > 0 then { p with neurosis_tokens := p.neurosis_tokens + amount } else p

/-- `Player.add_regret_tokens` (adds only when the amount is positive). -/
def Player.add_regret_tokens (p : Player) (amount : Int) : Player :=
  if amount > 0 then { p with regret_tokens := p.regret_tokens + amount } else p

/-- `Dice.special_effect(value, player)`, dispatched on the die class
(src/dice.py).  `AporicDice` inherits the `CatastrophizeDice` effect and
`NauseaDice` the `RidiculeDice` effect. -/
def Die.special_effect (d : Die) (value : Option Int) (player : Player) : Effects :=
  match d.kind with
  | DieKind.bliss => if value = some 6 then { heal := 1 } else {}
  | DieKind.comedown => if value = some 6 then { damage := 1 } else {}
  | DieKind.spite => if value = some 6 then { opp_damage := 1 } else {}
  | DieKind.inebriation =>
    if value = some 6 then { self_regret := 1, opp_neurosis := 1 } else {}
  | DieKind.acedic =>
    if value = some 6 then
      if player.regret_tokens = 0 then { heal := 1, self_regret := 1 }
      else { heal := 1 }
    else {}
  | DieKind.pilfer => if value = some 6 then { pilfer_six := 1 } else {}
  | DieKind.catastrophize => if value = some 1 then { force_fumble := 1 } else {}
  | DieKind.aporic => if value = some 1 then { force_fumble := 1 } else {}
  | DieKind.ridicule => if value = some 6 then { ridicule_six := 1 } else {}
  | DieKind.nausea => if value = some 6 then { ridicule_six := 1 } else {}
  | _ => {}

/-- The archetypes whose behaviour differs along the `play_debate` path: the
base `Archetype.apply_special_effects`, the `Euphoria` override, and the
`Temperance` / `Physiognomist` commit-time humor resolution flag. -/
inductive ArchKind where
  | base | euphoria | temperance | physiognomist
deriving DecidableEq, Repr

/-- `Archetype.apply_special_effects`: merge the special effects of each die
against its rolled result (`if i < len(player.dice)` guards the zip), then the
`Euphoria` override converts any heal into forgiveness tokens. -/
def applySpecialEffects (arch : ArchKind) (player : Player)
    (dice_results : List (Option Int)) : Effects :=
  let base := (dice_results.zip player.dice).foldl
    (fun acc vr => acc.add (vr.2.special_effect vr.1 player)) {}
  if arch = ArchKind.euphoria ∧ base.heal > 0 then
    { base with forgiveness_tokens := base.forgiveness_tokens + base.heal, heal := 0 }
  else base

/-- One `Dice.roll()` call: pick a face with the pluggable random source
(`random.choice(self.faces)`) and store it in `last_value`. -/
def Die.roll (d : Die) (rng : Nat → Nat) (n : Nat) : Die × Option Int × Nat :=
  let v := d.faces.getD (rng n % d.faces.length) none
  ({ d with lastValue := v }, v, n + 1)

/-- `GameEngine.roll_dice`: roll every die that can be rolled and append `-1`
for a blank die; returns the values, the updated dice and the advanced random
counter. -/
def roll_dice (rng : Nat → Nat) (n : Nat) : List Die → List (Option Int) × List Die × Nat
  | [] => ([], [], n)
  | d :: rest =>
    if d.canRoll then
      let r := d.roll rng n
      let rec2 := roll_dice rng r.2.2 rest
      (r.2.1 :: rec2.1, r.1 :: rec2.2.1, rec2.2.2)
    else
      let rec2 := roll_dice rng n rest
      (some (-1) :: rec2.1, d :: rec2.2.1, rec2.2.2)

/-- A live-pool entry `(value, die_obj)`; the die is `none` for a conjured
echo value. -/
abbrev PoolEntry := Option Int × Option Die

/-- `GameEngine._roll_live_pool`: roll the dice, pair each value with its die,
aggregate and apply the on-roll special effects (heal, damage, forgiveness
tokens), then inject and clear any pending one-roll echo values. -/
def roll_live_pool (rng : Nat → Nat) (n : Nat) (player : Player) (arch : ArchKind) :
    List PoolEntry × Effects × Player × Nat :=
  let rolled := roll_dice rng n player.dice
  let values := rolled.1
  let player := { player with dice := rolled.2.1 }
  let n := rolled.2.2
  let live_pool : List PoolEntry := values.zip (player.dice.map some)
  let round_effects := applySpecialEffects arch player (live_pool.map Prod.fst)
  let player :=
    if round_effects.heal > 0 then (player.heal round_effects.heal).1 else player
  let player :=
    if round_effects.damage > 0 then (player.take_damage round_effects.damage).1
    else player
  let player :=
    if round_effects.forgiveness_tokens > 0 then
      { player with forgiveness_tokens :=
          player.forgiveness_tokens + round_effects.forgiveness_tokens }
    else player
  let live_pool := live_pool ++ player.pending_echo_values.map (fun ev => (ev, none))
  let player := { player with pending_echo_values := [] }
  (live_pool, round_effects, player, n)

/-- `next((i for i, (v, dobj) in enumerate(live_pool) if v == die_value), None)`
followed by `live_pool.pop(idx)`: pop the first pool entry carrying the value. -/
def popFirstValue (v : Int) : List PoolEntry → Option (PoolEntry × List PoolEntry)
  | [] => none
  | e :: rest =>
    if e.1 = some v then some (e, rest)
    else (popFirstValue v rest).map (fun pr => (pr.1, e :: pr.2))

/-- The per-combination removal loop of the banking phase: for each die value
of the winning combination, pop the first matching pool entry, record its
source die and erase one occurrence from the live value list. -/
def consumeDice : List Int → List PoolEntry → List (Option Int) → List (Option Die) →
    List PoolEntry × List (Option Int) × List (Option Die)
  | [], pool, ld, srcs => (pool, ld, srcs)
  | v :: vs, pool, ld, srcs =>
    match popFirstValue v pool with
    | some (e, pool2) => consumeDice vs pool2 (ld.erase (some v)) (srcs ++ [e.2])
    | none => consumeDice vs pool ld srcs

/-- `getattr(dobj, "name", "") in ("Catastrophize", "Aporic") and
getattr(dobj, "last_value", None) == 6` (echo sources have no die). -/
def srcCatastrophizeSix (s : Option Die) : Bool :=
  match s with
  | some d => (d.name = "Catastrophize" ∨ d.name = "Aporic") ∧ d.lastValue = some 6
  | none => false

/-- `isinstance(d, HighMindedDice) and getattr(d, "last_value", None) == 6`. -/
def srcHighMindedSix (s : Option Die) : Bool :=
  match s with
  | some d => d.kind = DieKind.highMinded ∧ d.lastValue = some 6
  | none => false

/-- `isinstance(d, GroundedDice)`. -/
def srcGrounded (s : Option Die) : Bool :=
  match s with
  | some d => d.kind = DieKind.grounded
  | none => false

/-- `isinstance(d, PenanceDice) and getattr(d, "last_value", 0) >= 4`
(a used Penance die always carries an integer `last_value`). -/
def srcPenanceGE4 (s : Option Die) : Bool :=
  match s with
  | some d =>
    decide (d.kind = DieKind.penance) &&
      (match d.lastValue with
       | some v => decide (4 ≤ v)
       | none => false)
  | none => false

/-- `getattr(d, "name", "") == "Apathetic"`. -/
def srcApathetic (s : Option Die) : Bool :=
  match s with
  | some d => d.name = "Apathetic"
  | none => false

/-- The mutable locals of the banking loop in
`GameEngine._bank_from_live_pool`. -/
structure BankState where
  player : Player
  live_pool : List PoolEntry
  live_dice : List (Option Int)
  insults : List Combo
  insult_sources : List (List (Option Die))
  used_abyssal : Bool
  special_effects : Effects

/-- The head of each banking iteration:
`possible_combos = find_combos(live_dice)`; break on an empty result (the
legacy all-Slighting check included), otherwise take
`max(possible_combos, key=lambda c: c.damage)`. -/
def bankFindBest (live_dice : List (Option Int)) : Option Combo :=
  match find_combos live_dice with
  | [] => none
  | c :: cs =>
    if (c :: cs).all (fun x => decide (x.name = "Slighting") && x.dice.isEmpty) then none
    else some (pyMaxFold Combo.damage c cs)

/-- One full iteration of the banking loop after the winning combination has
been selected: remove its dice from the pools, then apply the bank-time
effects in source order (Catastrophize/Aporic bust protection, High-Minded
raise, Grounded pair echo, Penance double-damage flag, Apathetic heal,
Abyssal copy-lowest, Nostalgia next-roll echoes), and append the combination
and its sources. -/
def bankOnce (st : BankState) (best : Combo) : BankState :=
  let consumed := consumeDice best.dice st.live_pool st.live_dice []
  let pool2 := consumed.1
  let ld2 := consumed.2.1
  let used_sources := consumed.2.2
  let player := st.player
  let player :=
    if used_sources.any srcCatastrophizeSix then { player with bust_protection := true }
    else player
  let best :=
    if used_sources.any srcHighMindedSix ∧ 1 ≤ best.dice.length then
      setDice best (best.dice ++ [best.dice.getLast?.getD 0])
    else best
  let best :=
    if best.dice.length = 2 ∧ best.dice.dedup.length = 1 ∧ used_sources.any srcGrounded
    then setDice best (best.dice ++ [1])
    else best
  let player :=
    if used_sources.any srcPenanceGE4 then { player with penance_double_active := true }
    else player
  let se :=
    if used_sources.any srcApathetic then
      { st.special_effects with heal := st.special_effects.heal + (player.heal 2).2 }
    else st.special_effects
  let player := if used_sources.any srcApathetic then (player.heal 2).1 else player
  let doAbyssal :=
    ¬ st.used_abyssal ∧ player.dice.any (fun d => d.name = "Abyssal") ∧ best.dice ≠ []
  let best := if doAbyssal then setDice best (best.dice ++ [pyMinInt best.dice]) else best
  let used_abyssal := if doAbyssal then true else st.used_abyssal
  let player := used_sources.enum.foldl
    (fun p isrc =>
      match isrc.2 with
      | some d =>
        if d.kind = DieKind.nostalgia then
          let echo_val : Option Int :=
            if isrc.1 < best.dice.length then some (best.dice.getD isrc.1 0)
            else d.lastValue
          { p with pending_echo_values := p.pending_echo_values ++ [echo_val] }
        else p
      | none => p)
    player
  { player := player, live_pool := pool2, live_dice := ld2,
    insults := st.insults ++ [best],
    insult_sources := st.insult_sources ++ [used_sources],
    used_abyssal := used_abyssal, special_effects := se }

theorem bankOnce_insults_length (st : BankState) (best : Combo) :
    (bankOnce st best).insults.length = st.insults.length + 1 := by
  simp [bankOnce]

/-- The body of the `while True` banking loop, recursing on an explicit
iteration bound: find the best combination (stop if none), bank it, and stop
as soon as two combinations are banked or fewer than four live values
remain. -/
def bankLoopAux : Nat → BankState → BankState
  | 0, st => st
  | fuel + 1, st =>
    match bankFindBest st.live_dice with
    | none => st
    | some best =>
      let st2 := bankOnce st best
      if 2 ≤ st2.insults.length ∨ st2.live_dice.length < 4 then st2
      else bankLoopAux fuel st2

/-- The `while True` banking loop of `GameEngine._bank_from_live_pool`.
Each iteration appends exactly one combination
(`bankOnce_insults_length`) and the loop breaks as soon as two are banked,
so `2 - |insults|` iterations always suffice: the bound is never exhausted
and the definition coincides with the unbounded loop. -/
def bankLoop (st : BankState) : BankState :=
  bankLoopAux (2 - st.insults.length) st

/-- The four humor totals (sanguine, phlegmatic, melancholic, choleric) of the
Temperance/Physiognomist commit-time resolution: sum each banked die value
into the bucket given by its source die's colour. -/
def humorSumsOf (insults : List Combo) (sources : List (List (Option Die))) :
    Int × Int × Int × Int :=
  (insults.zip sources).foldl
    (fun acc cs =>
      let padded := cs.2 ++ List.replicate (cs.1.dice.length - cs.2.length) none
      (cs.1.dice.zip padded).foldl
        (fun a vd =>
          match vd.2 with
          | none => a
          | some d =>
            match d.color with
            | none => a
            | some c =>
              if c = "red" ∨ c = "purple" then (a.1 + vd.1, a.2.1, a.2.2.1, a.2.2.2)
              else if c = "green" ∨ c = "blue" then (a.1, a.2.1 + vd.1, a.2.2.1, a.2.2.2)
              else if c = "gray" then (a.1, a.2.1, a.2.2.1 + vd.1, a.2.2.2)
              else if c = "yellow" ∨ c = "orange" then
                (a.1, a.2.1, a.2.2.1, a.2.2.2 + vd.1)
              else a)
        acc)
    (0, 0, 0, 0)

/-- The `humor_sums` dict as its insertion-ordered item list. -/
def humorItems (hs : Int × Int × Int × Int) : List (String × Int) :=
  [("sanguine", hs.1), ("phlegmatic", hs.2.1),
   ("melancholic", hs.2.2.1), ("choleric", hs.2.2.2)]

/-- Find the first Phlegmatic source die inside one insult's source list. -/
def findPhlegmaticIn (src : List (Option Die)) : Option (Nat × Die) :=
  src.enum.findSome? (fun sd =>
    match sd.2 with
    | some d => if d.kind = DieKind.phlegmatic then some (sd.1, d) else none
    | none => none)

/-- Find the first Phlegmatic source die across the banked insults, in
bank order (combination index, source index, die). -/
def findPhlegmatic (sources : List (List (Option Die))) : Option (Nat × Nat × Die) :=
  sources.enum.findSome? (fun cs =>
    (findPhlegmaticIn cs.2).map (fun sd => (cs.1, sd.1, sd.2)))

/-- The mutable state of the commit-time humor resolution. -/
structure CommitState where
  player : Player
  special_effects : Effects
  insults : List Combo
  insult_sources : List (List (Option Die))
  n : Nat

/-- Apply one chosen humor effect (`for h in chosen` in
`_bank_from_live_pool`): sanguine heals 1, melancholic queues one opponent
neurosis token, phlegmatic rerolls the first banked Phlegmatic die value
in place, choleric queues two opponent regret tokens.  (Phlegmatic faces
contain no blanks, so the rerolled value is always an integer.) -/
def applyHumorEffect (rng : Nat → Nat) (st : CommitState) (h : String) : CommitState :=
  if h = "sanguine" then { st with player := (st.player.heal 1).1 }
  else if h = "melancholic" then
    { st with special_effects :=
        { st.special_effects with
          opp_neurosis := st.special_effects.opp_neurosis + 1 } }
  else if h = "phlegmatic" then
    match findPhlegmatic st.insult_sources with
    | some cisid =>
      let rolledv := (cisid.2.2.roll rng st.n).2.1
      match st.insults.get? cisid.1 with
      | some c =>
        { st with
          insults := st.insults.set cisid.1
            (setDice c (c.dice.set cisid.2.1 (rolledv.getD 0))),
          n := st.n + 1 }
      | none => { st with n := st.n + 1 }
    | none => st
  else if h = "choleric" then
    { st with special_effects :=
        { st.special_effects with opp_regret := st.special_effects.opp_regret + 2 } }
  else st

/-- `RoundResult` from `src/game_engine.py`. -/
structure RoundResult where
  player_name : String
  insults : List Combo
  fumbled : Bool
  total_damage : Int
  special_effects : Effects
  initial_live_values : List (Option Int) := []
  insults_banked_count : Nat := 0
  damage_to_opponent : Int := 0
  damage_from_opponent : Int := 0
  echo_summoned_count : Nat := 0
  rolled_only_odds : Bool := false
  rolled_only_evens : Bool := false
  contained_any_one : Bool := false
deriving DecidableEq, Repr

/-- The `isinstance(v, int) and v > 0` filter used for the roll-shape flags. -/
def posInts (l : List (Option Int)) : List Int :=
  (l.filterMap id).filter (fun v => 0 < v)

/-- The Temperance/Physiognomist commit-time humor resolution of
`GameEngine._bank_from_live_pool`: compute the humor totals, sort them
descending (stable, as Python `sorted` is), and apply the effects of the up
to two top humors when the top total is positive. -/
def bankCommitState (rng : Nat → Nat) (n : Nat) (arch : ArchKind)
    (st : BankState) : CommitState :=
  let cst0 : CommitState := ⟨st.player, st.special_effects, st.insults, st.insult_sources, n⟩
  if (arch = ArchKind.temperance ∨ arch = ArchKind.physiognomist) ∧
      st.insult_sources ≠ [] then
    let sorted_humors :=
      (humorItems (humorSumsOf st.insults st.insult_sources)).insertionSort
        (fun x y => y.2 ≤ x.2)
    let top_value : Int := match sorted_humors with | [] => 0 | h :: _ => h.2
    let chosen :=
      if top_value > 0 then (sorted_humors.filter (fun hv => hv.2 = top_value)).take 2
      else []
    chosen.foldl (fun s hv => applyHumorEffect rng s hv.1) cst0
  else cst0

/-- `GameEngine._bank_from_live_pool`: run the banking loop, then the
commit-time humor resolution, and assemble the round result.  Returns the
result, the updated player and the advanced random counter. -/
def bank_from_live_pool (rng : Nat → Nat) (n : Nat) (player : Player)
    (arch : ArchKind) (live_pool : List PoolEntry) : RoundResult × Player × Nat :=
  let live_dice := live_pool.map Prod.fst
  let initial_values := live_dice
  let cst := bankCommitState rng n arch
    (bankLoop ⟨player, live_pool, live_dice, [], [], false, {}⟩)
  let rr : RoundResult := {
    player_name := cst.player.name
    insults := cst.insults
    fumbled := false
    total_damage := (cst.insults.map Combo.damage).sum
    special_effects := cst.special_effects
    initial_live_values := initial_values
    insults_banked_count := cst.insults.length
    echo_summoned_count := 0
    rolled_only_odds := (posInts initial_values).all (fun v => v % 2 = 1)
    rolled_only_evens := (posInts initial_values).all (fun v => v % 2 = 0)
    contained_any_one := initial_values.any (fun v => v = some 1) }
  (rr, cst.player, cst.n)

/-- The fumble penalty of `play_debate` (lines 460-462 / 493-495): convert any
held regret tokens 1:1 into immediate self-damage and clear them. -/
def applyFumblePenalty (p : Player) : Player :=
  if p.regret_tokens > 0 then
    { (p.take_damage p.regret_tokens).1 with regret_tokens := 0 }
  else p

/-- The `RoundResult` literal built for a fumbled player in `play_debate`. -/
def fumbledRoundResult (nm : String) : RoundResult :=
  { player_name := nm, insults := [], fumbled := true, total_damage := 0,
    special_effects := {}, initial_live_values := [], insults_banked_count := 0,
    damage_to_opponent := 0, damage_from_opponent := 0, echo_summoned_count := 0,
    rolled_only_odds := false, rolled_only_evens := false,
    contained_any_one := false }

/-- The deferred pilfer steal at the start of a round: if the thief carries
the pending flag and the victim's pool is non-empty, move the victim's
highest positive live value (last such entry on ties, per
`sorted(cands, key=value)[-1]`) into the thief's pool and clear the flag. -/
def pilferSteal (thief : Player) (thiefPool victimPool : List PoolEntry) :
    Player × List PoolEntry × List PoolEntry :=
  if thief.pending_pilfer_next_round ∧ victimPool ≠ [] then
    let cands := victimPool.enum.filter (fun iv =>
      match iv.2.1 with
      | some v => 0 < v
      | none => false)
    let picked := cands.foldl
      (fun acc c =>
        match acc with
        | none => some c
        | some b => if (b.2.1.getD 0) ≤ (c.2.1.getD 0) then some c else some b)
      none
    let pools := match picked with
      | some ie => (thiefPool ++ [ie.2], victimPool.eraseIdx ie.1)
      | none => (thiefPool, victimPool)
    ({ thief with pending_pilfer_next_round := false }, pools.1, pools.2)
  else (thief, thiefPool, victimPool)

/-- The after-clash token block of `play_debate` (source lines 563-611),
which in the source sits inside the both-players-fumbled `else` branch:
direct opponent damage, opponent neurosis grants, neurosis self-damage
(one token consumed), self-regret grants, ridicule transfers, commit-time
opponent regret, and the forgiveness self-heal (one token consumed). -/
def tokenCascade (p1 p2 : Player) (se1 se2 : Effects) : Player × Player :=
  let p2 := if se1.opp_damage > 0 then (p2.take_damage se1.opp_damage).1 else p2
  let p1 := if se2.opp_damage > 0 then (p1.take_damage se2.opp_damage).1 else p1
  let p2 := if se1.opp_neurosis > 0 then p2.add_neurosis_tokens se1.opp_neurosis else p2
  let p1 := if se2.opp_neurosis > 0 then p1.add_neurosis_tokens se2.opp_neurosis else p1
  let p1 :=
    if p1.neurosis_tokens > 0 then
      let q := (p1.take_damage 1).1
      { q with neurosis_tokens := max 0 (q.neurosis_tokens - 1) }
    else p1
  let p2 :=
    if p2.neurosis_tokens > 0 then
      let q := (p2.take_damage 1).1
      { q with neurosis_tokens := max 0 (q.neurosis_tokens - 1) }
    else p2
  let p1 := if se1.self_regret > 0 then p1.add_regret_tokens se1.self_regret else p1
  let p2 := if se2.self_regret > 0 then p2.add_regret_tokens se2.self_regret else p2
  let pr1 :=
    if se1.ridicule_six ≠ 0 then
      if p1.regret_tokens > 0 then
        ({ p1 with regret_tokens := p1.regret_tokens - 1 }, p2.add_regret_tokens 1)
      else (p1.add_regret_tokens 1, p2)
    else (p1, p2)
  let p1 := pr1.1
  let p2 := pr1.2
  let pr2 :=
    if se2.ridicule_six ≠ 0 then
      if p2.regret_tokens > 0 then
        ({ p2 with regret_tokens := p2.regret_tokens - 1 }, p1.add_regret_tokens 1)
      else (p2.add_regret_tokens 1, p1)
    else (p2, p1)
  let p2 := pr2.1
  let p1 := pr2.2
  let p2 := if se1.opp_regret > 0 then p2.add_regret_tokens se1.opp_regret else p2
  let p1 := if se2.opp_regret > 0 then p1.add_regret_tokens se2.opp_regret else p1
  let p1 :=
    if p1.forgiveness_tokens > 0 then
      let q := (p1.heal 1).1
      { q with forgiveness_tokens := max 0 (q.forgiveness_tokens - 1) }
    else p1
  let p2 :=
    if p2.forgiveness_tokens > 0 then
      let q := (p2.heal 1).1
      { q with forgiveness_tokens := max 0 (q.forgiveness_tokens - 1) }
    else p2
  (p1, p2)

/-- One iteration of the `for round_num in range(max_rounds)` loop of
`GameEngine.play_debate` up to (and including) the clash / token block:
roll both pools, resolve the deferred pilfer steal and set next-round pilfer
flags, bank or apply the fumble penalty, apply round special heal/damage,
then the four-way clash branch (the token cascade runs in the both-fumbled
branch, exactly as in the source).  Emotion hooks are no-ops (no emotions
modelled). -/
def play_debate_round (rng : Nat → Nat) (n : Nat) (p1 p2 : Player)
    (a1 a2 : ArchKind) : RoundResult × RoundResult × Player × Player × Nat :=
  let rl1 := roll_live_pool rng n p1 a1
  let pool1 := rl1.1
  let effects1 := rl1.2.1
  let p1 := rl1.2.2.1
  let rl2 := roll_live_pool rng rl1.2.2.2 p2 a2
  let pool2 := rl2.1
  let effects2 := rl2.2.1
  let p2 := rl2.2.2.1
  let n := rl2.2.2.2
  let fumble1 := effects1.force_fumble ≠ 0 ∧ ¬ p1.bust_protection
  let fumble2 := effects2.force_fumble ≠ 0 ∧ ¬ p2.bust_protection
  let st1 := pilferSteal p1 pool1 pool2
  let p1 := st1.1
  let pool1 := st1.2.1
  let pool2 := st1.2.2
  let st2 := pilferSteal p2 pool2 pool1
  let p2 := st2.1
  let pool2 := st2.2.1
  let pool1 := st2.2.2
  let p1 :=
    if 2 ≤ effects1.pilfer_six then { p1 with pending_pilfer_next_round := true } else p1
  let p2 :=
    if 2 ≤ effects2.pilfer_six then { p2 with pending_pilfer_next_round := true } else p2
  let b1 :=
    if fumble1 then (fumbledRoundResult p1.name, applyFumblePenalty p1, n)
    else bank_from_live_pool rng n p1 a1 pool1
  let round1 := b1.1
  let p1 := b1.2.1
  let b2 :=
    if fumble2 then (fumbledRoundResult p2.name, applyFumblePenalty p2, b1.2.2)
    else bank_from_live_pool rng b1.2.2 p2 a2 pool2
  let round2 := b2.1
  let p2 := b2.2.1
  let n := b2.2.2
  let p1 :=
    if round1.special_effects.heal > 0 then (p1.heal round1.special_effects.heal).1
    else p1
  let p1 :=
    if round1.special_effects.damage > 0 then
      (p1.take_damage round1.special_effects.damage).1
    else p1
  let p2 :=
    if round2.special_effects.heal > 0 then (p2.heal round2.special_effects.heal).1
    else p2
  let p2 :=
    if round2.special_effects.damage > 0 then
      (p2.take_damage round2.special_effects.damage).1
    else p2
  if ¬ round1.fumbled ∧ ¬ round2.fumbled then
    let d12 := calculate_damage round1.insults round2.insults
    let d21 := calculate_damage round2.insults round1.insults
    let d12 := if p1.penance_double_active then d12 * 2 else d12
    let d21 := if p1.penance_double_active then d21 * 2 else d21
    let d12 := if p2.penance_double_active then d12 * 2 else d12
    let d21 := if p2.penance_double_active then d21 * 2 else d21
    let p2 := (p2.take_damage d12).1
    let p1 := (p1.take_damage d21).1
    ({ round1 with damage_to_opponent := d12, damage_from_opponent := d21 },
     { round2 with damage_from_opponent := d12, damage_to_opponent := d21 },
     p1, p2, n)
  else if round1.fumbled ∧ ¬ round2.fumbled then
    let d21 := calculate_damage round2.insults []
    let d21 := if p2.penance_double_active then d21 * 2 else d21
    let p1 := (p1.take_damage d21).1
    ({ round1 with damage_from_opponent := d21 },
     { round2 with damage_to_opponent := d21 }, p1, p2, n)
  else if round2.fumbled ∧ ¬ round1.fumbled then
    let d12 := calculate_damage round1.insults []
    let d12 := if p1.penance_double_active then d12 * 2 else d12
    let p2 := (p2.take_damage d12).1
    ({ round1 with damage_to_opponent := d12 },
     { round2 with damage_from_opponent := d12 }, p1, p2, n)
  else
    let casc := tokenCascade p1 p2 round1.special_effects round2.special_effects
    (round1, round2, casc.1, casc.2, n)

/-- `DebateResult` from `src/game_engine.py`; `final_health` is the Python
dict `{player1.name: h1, player2.name: h2}` as an ordered key-value list. -/
structure DebateResult where
  winner : String
  rounds : List RoundResult
  final_health : List (String × Int)
deriving DecidableEq, Repr

/-- `{player1.name: player1.health, player2.name: player2.health}` (a repeated
key keeps the last value). -/
def mkFinalHealth (n1 : String) (h1 : Int) (n2 : String) (h2 : Int) :
    List (String × Int) :=
  if n1 = n2 then [(n2, h2)] else [(n1, h1), (n2, h2)]

/-- The round loop of `GameEngine.play_debate`: play rounds until a knockout
return (tie on simultaneous knockout) or the round cap; on the cap path the
winner is decided by health comparison and the per-debate neurosis and
forgiveness tokens are cleared.  Returns the result together with the final
player states. -/
def debateLoop (rng : Nat → Nat) (a1 a2 : ArchKind) :
    Nat → Nat → Player → Player → List RoundResult → DebateResult × Player × Player
  | 0, _, p1, p2, rounds =>
    let winner :=
      if p1.health > p2.health then p1.name
      else if p2.health > p1.health then p2.name
      else "Tie"
    let p1 := { p1 with neurosis_tokens := 0, forgiveness_tokens := 0 }
    let p2 := { p2 with neurosis_tokens := 0, forgiveness_tokens := 0 }
    (⟨winner, rounds, mkFinalHealth p1.name p1.health p2.name p2.health⟩, p1, p2)
  | fuel + 1, n, p1, p2, rounds =>
    let res := play_debate_round rng n p1 p2 a1 a2
    let round1 := res.1
    let round2 := res.2.1
    let p1 := res.2.2.1
    let p2 := res.2.2.2.1
    let n := res.2.2.2.2
    let rounds := rounds ++ [round1, round2]
    if p1.health ≤ 0 ∧ p2.health ≤ 0 then
      (⟨"Tie", rounds, mkFinalHealth p1.name p1.health p2.name p2.health⟩, p1, p2)
    else if p1.health ≤ 0 then
      (⟨p2.name, rounds, mkFinalHealth p1.name p1.health p2.name p2.health⟩, p1, p2)
    else if p2.health ≤ 0 then
      (⟨p1.name, rounds, mkFinalHealth p1.name p1.health p2.name p2.health⟩, p1, p2)
    else debateLoop rng a1 a2 fuel n p1 p2 rounds

/-- `GameEngine.play_debate(player1, archetype1, player2, archetype2,
max_rounds)` for players without emotion hooks, with the pluggable random
source threaded through. -/
def play_debate (rng : Nat → Nat) (p1 : Player) (a1 : ArchKind) (p2 : Player)
    (a2 : ArchKind) (max_rounds : Nat) : DebateResult × Player × Player :=
  debateLoop rng a1 a2 max_rounds 0 p1 p2 []

/-! Concrete fixtures used to evaluate the embedded engine on specific runs.
`SpecialFaceDice` (src/archetypes.py) builds a die with arbitrary faces and no
special effect; a die whose six faces are all equal rolls deterministically
under every random source. -/

/-- A pick stream that always chooses the first face. -/
def rngZero : Nat → Nat := fun _ => 0

/-- `create_special_dice([v]*6)`: a special die whose faces all show `v`. -/
def specialDie (v : Int) : Die :=
  ⟨DieKind.special, "Special", List.replicate 6 (some v), none, none⟩

/-- `CatastrophizeDice()`: faces 1,3,4,6,6,6; rolling a 1 forces a fumble.
Under `rngZero` it always rolls its first face, 1. -/
def catastrophizeDie : Die :=
  ⟨DieKind.catastrophize, "Catastrophize",
   [some 1, some 3, some 4, some 6, some 6, some 6], none, none⟩

/-- A player with six all-six special dice holding 5 neurosis and 2
forgiveness tokens. -/
def allSixesPlayer : Player :=
  { name := "P1", neurosis_tokens := 5, forgiveness_tokens := 2,
    dice := List.replicate 6 (specialDie 6) }

/-- A player with six all-one special dice. -/
def allOnesOpponent : Player :=
  { name := "P2", dice := List.replicate 6 (specialDie 1) }

/-- A player with six all-one special dice holding one neurosis token. -/
def onesWithNeurosis : Player :=
  { name := "P1", neurosis_tokens := 1, dice := List.replicate 6 (specialDie 1) }

/-- A player holding one neurosis token whose only die forces a fumble under
`rngZero`. -/
def catWithNeurosis : Player :=
  { name := "P1", neurosis_tokens := 1, dice := [catastrophizeDie] }

/-- An opponent whose only die forces a fumble under `rngZero`. -/
def catOpponent : Player := { name := "P2", dice := [catastrophizeDie] }

/-- A player holding 3 regret tokens whose only die forces a fumble under
`rngZero`. -/
def catWithRegret : Player :=
  { name := "P1", regret_tokens := 3, dice := [catastrophizeDie] }

/-- A health mutation: one `take_damage` or `heal` call. -/
inductive HealthOp where
  | damage (amount : Int)
  | heal (amount : Int)
deriving DecidableEq, Repr

/-- The amount carried by a health mutation. -/
def HealthOp.amount : HealthOp → Int
  | HealthOp.damage a => a
  | HealthOp.heal a => a

/-- Run one `take_damage` / `heal` call against a player. -/
def applyHealthOp (p : Player) (op : HealthOp) : Player :=
  match op with
  | HealthOp.damage a => (p.take_damage a).1
  | HealthOp.heal a => (p.heal a).1

/-- Run a sequence of `take_damage` / `heal` calls against a player. -/
def applyHealthOps (p : Player) (ops : List HealthOp) : Player :=
  ops.foldl applyHealthOp p

/-! ## Theorems -/

/-- Python `max` semantics of `pyMaxFold`: the result is the accumulator when
nothing beats it, or the first element of the list attaining the maximum key:
everything before it is strictly smaller, everything after it is no larger. -/
theorem pyMaxFold_spec {α κ : Type} [LinearOrder κ] (key : α → κ) :
    ∀ (l : List α) (b : α),
      (pyMaxFold key b l = b ∧ ∀ x ∈ l, key x ≤ key b) ∨
      (∃ l₁ l₂, l = l₁ ++ pyMaxFold key b l :: l₂ ∧
        key b < key (pyMaxFold key b l) ∧
        (∀ x ∈ l₁, key x < key (pyMaxFold key b l)) ∧
        (∀ x ∈ l₂, key x ≤ key (pyMaxFold key b l))) := by
  intro l
  induction l with
  | nil => intro b; left; exact ⟨rfl, by simp⟩
  | cons y ys ih =>
    intro b
    have hstep : pyMaxFold key b (y :: ys) =
        pyMaxFold key (if key b < key y then y else b) ys := by
      simp [pyMaxFold]
    by_cases hb : key b < key y
    · rw [if_pos hb] at hstep
      rcases ih y with ⟨hr, hall⟩ | ⟨m₁, m₂, hys, hyr, h₁, h₂⟩
      · right
        refine ⟨[], ys, ?_, ?_, by simp, ?_⟩
        · simp [hstep, hr]
        · rw [hstep, hr]; exact hb
        · intro x hx; rw [hstep, hr]; exact hall x hx
      · right
        refine ⟨y :: m₁, m₂, ?_, ?_, ?_, ?_⟩
        · rw [hstep]; simpa using hys
        · rw [hstep]; exact lt_trans hb hyr
        · intro x hx
          rw [hstep]
          rcases List.mem_cons.1 hx with rfl | hx
          · exact hyr
          · exact h₁ x hx
        · intro x hx; rw [hstep]; exact h₂ x hx
    · rw [if_neg hb] at hstep
      push_neg at hb
      rcases ih b with ⟨hr, hall⟩ | ⟨m₁, m₂, hys, hbr, h₁, h₂⟩
      · left
        refine ⟨by rw [hstep, hr], ?_⟩
        intro x hx
        rcases List.mem_cons.1 hx with rfl | hx
        · exact hb
        · exact hall x hx
      · right
        refine ⟨y :: m₁, m₂, ?_, ?_, ?_, ?_⟩
        · rw [hstep]; simpa using hys
        · rw [hstep]; exact hbr
        · intro x hx
          rw [hstep]
          rcases List.mem_cons.1 hx with rfl | hx
          · exact lt_of_le_of_lt hb hbr
          · exact h₁ x hx
        · intro x hx; rw [hstep]; exact h₂ x hx

/-- The result of `pyMaxFold` is the accumulator or a list element. -/
theorem pyMaxFold_mem {α κ : Type} [LinearOrder κ] (key : α → κ) (l : List α)
    (b : α) : pyMaxFold key b l = b ∨ pyMaxFold key b l ∈ l := by
  rcases pyMaxFold_spec key l b with ⟨hr, _⟩ | ⟨l₁, l₂, hsplit, _, _, _⟩
  · exact Or.inl hr
  · right
    have hmem : pyMaxFold key b l ∈ l₁ ++ pyMaxFold key b l :: l₂ :=
      List.mem_append_right _ (List.mem_cons_self _ _)
    rwa [← hsplit] at hmem

theorem candidatesOf_ne_nil (dv : List Int) : candidatesOf dv ≠ [] := by
  intro h
  have := congrArg List.length h
  simp [candidatesOf] at this

/-- On a non-empty filtered input, `find_combos` returns the singleton
`pyMaxFold` over the candidate list. -/
theorem find_combos_eq (input : List (Option Int)) (h : diceValues input ≠ []) :
    ∃ c cs, candidatesOf (diceValues input) = c :: cs ∧
      find_combos input = [pyMaxFold score c cs] := by
  rcases hc : candidatesOf (diceValues input) with _ | ⟨c, cs⟩
  · exact absurd hc (candidatesOf_ne_nil _)
  · refine ⟨c, cs, rfl, ?_⟩
    have hie : (diceValues input).isEmpty = false := by
      cases hie2 : (diceValues input).isEmpty
      · rfl
      · exact absurd (List.isEmpty_iff.mp hie2) h
    simp [find_combos, hie, hc]

/-- C4: `find_best_combination` maximises the key
(dice count + echo bonus, dice count, dice sum) in lexicographic priority and,
among candidates with an equal key, returns the one generated earliest in the
fixed candidate order of `candidatesOf` (six-of-a-kind, six-straight,
five-of-a-kind, five-straight, two triplets, quad+pair, four-of-a-kind,
4-straight, 3-straight, triplet, pair, single highest); being a pure function
of its input, repeated calls return identical results. -/
theorem c4_best_selection (input : List (Option Int)) (h : diceValues input ≠ []) :
    ∃ c l₁ l₂, find_combos input = [c] ∧
      candidatesOf (diceValues input) = l₁ ++ c :: l₂ ∧
      (∀ x ∈ candidatesOf (diceValues input), score x ≤ score c) ∧
      (∀ x ∈ l₁, score x < score c) := by
  obtain ⟨c0, cs, hc, hf⟩ := find_combos_eq input h
  rcases pyMaxFold_spec score cs c0 with ⟨hr, hall⟩ | ⟨m₁, m₂, hsplit, hbr, h₁, h₂⟩
  · refine ⟨pyMaxFold score c0 cs, [], cs, hf, ?_, ?_, by simp⟩
    · rw [hc, hr]; simp
    · intro x hx
      rw [hc] at hx
      rw [hr]
      rcases List.mem_cons.1 hx with rfl | hx
      · exact le_refl _
      · exact hall x hx
  · refine ⟨pyMaxFold score c0 cs, c0 :: m₁, m₂, hf, ?_, ?_, ?_⟩
    · rw [hc]
      conv_lhs => rw [hsplit]
      rfl
    · intro x hx
      rw [hc] at hx
      rcases List.mem_cons.1 hx with rfl | hx
      · exact le_of_lt hbr
      · rw [hsplit] at hx
        rcases List.mem_append.1 hx with hx | hx
        · exact le_of_lt (h₁ x hx)
        · rcases List.mem_cons.1 hx with rfl | hx
          · exact le_refl _
          · exact h₂ x hx
    · intro x hx
      rcases List.mem_cons.1 hx with rfl | hx
      · exact hbr
      · exact h₁ x hx

theorem c4_best_selection_witness :
    ∃ c l₁ l₂, find_combos [some 1, some 2, some 3] = [c] ∧
      candidatesOf (diceValues [some 1, some 2, some 3]) = l₁ ++ c :: l₂ ∧
      (∀ x ∈ candidatesOf (diceValues [some 1, some 2, some 3]), score x ≤ score c) ∧
      (∀ x ∈ l₁, score x < score c) :=
  c4_best_selection [some 1, some 2, some 3] (by decide)

theorem addCount_mem_key {v : Int} {cnt : Nat} :
    ∀ (acc : List (Int × Nat)) (x : Int),
      (v, cnt) ∈ addCount acc x → (∃ c2, (v, c2) ∈ acc) ∨ v = x := by
  intro acc
  induction acc with
  | nil =>
    intro x h
    simp [addCount] at h
    exact Or.inr h.1
  | cons kc rest ih =>
    intro x h
    obtain ⟨k, c⟩ := kc
    rw [addCount] at h
    by_cases hk : k = x
    · rw [if_pos hk] at h
      rcases List.mem_cons.1 h with heq | hmem
      · obtain ⟨rfl, -⟩ := Prod.mk.injEq .. ▸ heq
        exact Or.inl ⟨c, List.mem_cons_self _ _⟩
      · exact Or.inl ⟨cnt, List.mem_cons_of_mem _ hmem⟩
    · rw [if_neg hk] at h
      rcases List.mem_cons.1 h with heq | hmem
      · obtain ⟨rfl, rfl⟩ := Prod.mk.injEq .. ▸ heq
        exact Or.inl ⟨cnt, List.mem_cons_self _ _⟩
      · rcases ih x hmem with ⟨c2, hc2⟩ | hvx
        · exact Or.inl ⟨c2, List.mem_cons_of_mem _ hc2⟩
        · exact Or.inr hvx

theorem countsOf_mem_key (l : List Int) (v : Int) (cnt : Nat)
    (h : (v, cnt) ∈ countsOf l) : v ∈ l := by
  suffices hgen : ∀ (l : List Int) (acc : List (Int × Nat)) (cnt : Nat),
      (v, cnt) ∈ l.foldl addCount acc → (∃ c2, (v, c2) ∈ acc) ∨ v ∈ l by
    rcases hgen l [] cnt h with ⟨c2, hc2⟩ | hv
    · simp at hc2
    · exact hv
  intro l
  induction l with
  | nil =>
    intro acc cnt h
    exact Or.inl ⟨cnt, h⟩
  | cons x xs ih =>
    intro acc cnt h
    rw [List.foldl_cons] at h
    rcases ih (addCount acc x) cnt h with ⟨c2, hc2⟩ | hv
    · rcases addCount_mem_key acc x hc2 with ⟨c3, hc3⟩ | rfl
      · exact Or.inl ⟨c3, hc3⟩
      · exact Or.inr (List.mem_cons_self _ _)
    · exact Or.inr (List.mem_cons_of_mem _ hv)

theorem foldl_max_mem : ∀ (xs : List Int) (x : Int),
    xs.foldl max x = x ∨ xs.foldl max x ∈ xs := by
  intro xs
  induction xs with
  | nil => intro x; exact Or.inl rfl
  | cons y ys ih =>
    intro x
    rw [List.foldl_cons]
    rcases ih (max x y) with h | h
    · rw [h]
      rcases max_choice x y with h2 | h2
      · exact Or.inl h2
      · right
        rw [h2]
        exact List.mem_cons_self _ _
    · exact Or.inr (List.mem_cons_of_mem _ h)

theorem pyMaxInt_mem (l : List Int) (h : l ≠ []) : pyMaxInt l ∈ l := by
  match l with
  | x :: xs =>
    rw [pyMaxInt]
    rcases foldl_max_mem xs x with h2 | h2
    · rw [h2]
      exact List.mem_cons_self _ _
    · exact List.mem_cons_of_mem _ h2

theorem sortedDistinct_mem (l : List Int) (v : Int) (h : v ∈ sortedDistinct l) :
    v ∈ l := by
  rw [sortedDistinct] at h
  rw [(List.perm_insertionSort _ _).mem_iff, List.mem_dedup] at h
  exact h

theorem straightCands_spec (dv : List Int) (m : Nat) (nm : String) (e : Int)
    (c : Combo) (hc : c ∈ straightCands dv m nm e) :
    c.dice.length = m ∧ ∀ v ∈ c.dice, v ∈ dv := by
  rw [straightCands] at hc
  split at hc
  case isFalse => simp at hc
  case isTrue hlen =>
    rw [List.mem_filterMap] at hc
    obtain ⟨i, hi, hcond⟩ := hc
    rw [List.mem_range] at hi
    split at hcond
    case isFalse => simp at hcond
    case isTrue hall =>
      rw [Option.some.injEq] at hcond
      subst hcond
      constructor
      · simp only [mkCombo]
        rw [List.length_map, List.length_range]
      · intro v hv
        simp only [mkCombo, List.mem_map, List.mem_range] at hv
        obtain ⟨j, hj, hveq⟩ := hv
        have hcnd := List.all_eq_true.1 hall j (List.mem_range.2 hj)
        have heq : (sortedDistinct dv).getD (i + j) 0 =
            (sortedDistinct dv).getD i 0 + (j : Int) := of_decide_eq_true hcnd
        have hij : i + j < (sortedDistinct dv).length := by omega
        have hmem : (sortedDistinct dv).getD (i + j) 0 ∈ sortedDistinct dv := by
          rw [List.getD_eq_getElem _ _ hij]
          exact List.getElem_mem hij
        rw [heq, hveq] at hmem
        exact sortedDistinct_mem dv _ hmem

theorem ofKindCands_spec (counts : List (Int × Nat)) (k : Nat) (nm : String)
    (e : Int) (c : Combo) (hc : c ∈ ofKindCands counts k nm e) :
    c.dice.length = k ∧ ∀ v ∈ c.dice, ∃ cnt, (v, cnt) ∈ counts := by
  rw [ofKindCands, List.mem_filterMap] at hc
  obtain ⟨vc, hvc, hcond⟩ := hc
  split at hcond
  case isFalse => simp at hcond
  case isTrue hk =>
    rw [Option.some.injEq] at hcond
    subst hcond
    refine ⟨by simp [mkCombo], ?_⟩
    intro v hv
    simp only [mkCombo, List.mem_replicate] at hv
    exact ⟨vc.2, hv.2 ▸ hvc⟩

theorem take2_getD_mem (tv : List Int) (h2 : 2 ≤ tv.length) (idx : Nat)
    (hidx : idx < 2) : ((tv.insertionSort (· ≥ ·)).take 2).getD idx 0 ∈ tv := by
  have hlen : ((tv.insertionSort (· ≥ ·)).take 2).length = 2 := by
    rw [List.length_take, List.length_insertionSort]
    omega
  have hb : idx < ((tv.insertionSort (· ≥ ·)).take 2).length := by omega
  have hmem := List.getElem_mem hb
  rw [← List.getD_eq_getElem _ 0 hb] at hmem
  have hmem2 := List.take_subset 2 _ hmem
  rw [(List.perm_insertionSort _ _).mem_iff] at hmem2
  exact hmem2

theorem tripValues_key (counts : List (Int × Nat)) (w : Int)
    (hw : w ∈ counts.filterMap
      (fun vc : Int × Nat => if 3 ≤ vc.2 then some vc.1 else none)) :
    ∃ cnt, (w, cnt) ∈ counts := by
  rw [List.mem_filterMap] at hw
  obtain ⟨vc, hvc, hcond⟩ := hw
  split at hcond
  · rw [Option.some.injEq] at hcond
    exact ⟨vc.2, hcond ▸ hvc⟩
  · simp at hcond

theorem twoTripletsCands_spec (counts : List (Int × Nat)) (c : Combo)
    (hc : c ∈ twoTripletsCands counts) :
    c.dice.length = 6 ∧ ∀ v ∈ c.dice, ∃ cnt, (v, cnt) ∈ counts := by
  rw [twoTripletsCands] at hc
  split at hc
  case isFalse => simp at hc
  case isTrue h2 =>
    rw [List.mem_singleton] at hc
    subst hc
    constructor
    · simp [mkCombo]
    · intro v hv
      simp only [mkCombo, List.mem_append, List.mem_replicate] at hv
      rcases hv with ⟨-, rfl⟩ | ⟨-, rfl⟩
      · exact tripValues_key counts _ (take2_getD_mem _ h2 0 (by omega))
      · exact tripValues_key counts _ (take2_getD_mem _ h2 1 (by omega))

theorem quadPairCands_spec (counts : List (Int × Nat)) (c : Combo)
    (hc : c ∈ quadPairCands counts) :
    c.dice.length = 6 ∧ ∀ v ∈ c.dice, ∃ cnt, (v, cnt) ∈ counts := by
  rw [quadPairCands, List.mem_flatMap] at hc
  obtain ⟨qv, hqv, hc2⟩ := hc
  rw [List.mem_filterMap] at hc2
  obtain ⟨pv, hpv, hcond⟩ := hc2
  split at hcond
  case isFalse => simp at hcond
  case isTrue hne =>
    rw [Option.some.injEq] at hcond
    subst hcond
    have hkeyq : ∃ cnt, (qv, cnt) ∈ counts := by
      rw [List.mem_filterMap] at hqv
      obtain ⟨vc, hvc, hcond2⟩ := hqv
      split at hcond2
      · rw [Option.some.injEq] at hcond2
        exact ⟨vc.2, hcond2 ▸ hvc⟩
      · simp at hcond2
    have hkeyp : ∃ cnt, (pv, cnt) ∈ counts := by
      rw [List.mem_filterMap] at hpv
      obtain ⟨vc, hvc, hcond2⟩ := hpv
      split at hcond2
      · rw [Option.some.injEq] at hcond2
        exact ⟨vc.2, hcond2 ▸ hvc⟩
      · simp at hcond2
    refine ⟨by simp [mkCombo], ?_⟩
    intro v hv
    simp only [mkCombo, List.mem_append, List.mem_replicate] at hv
    rcases hv with ⟨-, rfl⟩ | ⟨-, rfl⟩
    · exact hkeyq
    · exact hkeyp

/-- Every candidate has a non-empty dice list drawn from the filtered input. -/
theorem candidatesOf_dice_spec (dv : List Int) (c : Combo) (hne : dv ≠ [])
    (hc : c ∈ candidatesOf dv) : c.dice ≠ [] ∧ ∀ v ∈ c.dice, v ∈ dv := by
  have hkey : ∀ v (cnt : Nat), (v, cnt) ∈ countsOf dv → v ∈ dv :=
    fun v cnt h => countsOf_mem_key dv v cnt h
  simp only [candidatesOf, List.mem_append] at hc
  rcases hc with ((((((((((hc | hc) | hc) | hc) | hc) | hc) | hc) | hc) | hc) | hc) | hc) | hc
  · obtain ⟨hl, hm⟩ := ofKindCands_spec _ _ _ _ _ hc
    exact ⟨by intro h0; rw [h0] at hl; simp at hl,
      fun v hv => (hm v hv).elim (fun cnt h => hkey v cnt h)⟩
  · obtain ⟨hl, hm⟩ := straightCands_spec _ _ _ _ _ hc
    exact ⟨by intro h0; rw [h0] at hl; simp at hl, hm⟩
  · obtain ⟨hl, hm⟩ := ofKindCands_spec _ _ _ _ _ hc
    exact ⟨by intro h0; rw [h0] at hl; simp at hl,
      fun v hv => (hm v hv).elim (fun cnt h => hkey v cnt h)⟩
  · obtain ⟨hl, hm⟩ := straightCands_spec _ _ _ _ _ hc
    exact ⟨by intro h0; rw [h0] at hl; simp at hl, hm⟩
  · obtain ⟨hl, hm⟩ := twoTripletsCands_spec _ _ hc
    exact ⟨by intro h0; rw [h0] at hl; simp at hl,
      fun v hv => (hm v hv).elim (fun cnt h => hkey v cnt h)⟩
  · obtain ⟨hl, hm⟩ := quadPairCands_spec _ _ hc
    exact ⟨by intro h0; rw [h0] at hl; simp at hl,
      fun v hv => (hm v hv).elim (fun cnt h => hkey v cnt h)⟩
  · obtain ⟨hl, hm⟩ := ofKindCands_spec _ _ _ _ _ hc
    exact ⟨by intro h0; rw [h0] at hl; simp at hl,
      fun v hv => (hm v hv).elim (fun cnt h => hkey v cnt h)⟩
  · obtain ⟨hl, hm⟩ := straightCands_spec _ _ _ _ _ hc
    exact ⟨by intro h0; rw [h0] at hl; simp at hl, hm⟩
  · obtain ⟨hl, hm⟩ := straightCands_spec _ _ _ _ _ hc
    exact ⟨by intro h0; rw [h0] at hl; simp at hl, hm⟩
  · obtain ⟨hl, hm⟩ := ofKindCands_spec _ _ _ _ _ hc
    exact ⟨by intro h0; rw [h0] at hl; simp at hl,
      fun v hv => (hm v hv).elim (fun cnt h => hkey v cnt h)⟩
  · obtain ⟨hl, hm⟩ := ofKindCands_spec _ _ _ _ _ hc
    exact ⟨by intro h0; rw [h0] at hl; simp at hl,
      fun v hv => (hm v hv).elim (fun cnt h => hkey v cnt h)⟩
  · rw [List.mem_singleton] at hc
    subst hc
    refine ⟨by simp [mkCombo], ?_⟩
    intro v hv
    simp only [mkCombo, List.mem_singleton] at hv
    exact hv ▸ pyMaxInt_mem dv hne

/-- The selected combination is one of the candidates. -/
theorem find_combos_mem_candidates (input : List (Option Int)) (c : Combo)
    (hc : c ∈ find_combos input) :
    diceValues input ≠ [] ∧ c ∈ candidatesOf (diceValues input) := by
  by_cases h : diceValues input = []
  · rw [find_combos] at hc
    rw [if_pos (by rw [List.isEmpty_iff]; exact h)] at hc
    simp at hc
  · obtain ⟨c0, cs, hcand, hf⟩ := find_combos_eq input h
    rw [hf, List.mem_singleton] at hc
    subst hc
    refine ⟨h, ?_⟩
    rcases pyMaxFold_mem score cs c0 with h2 | h2
    · rw [hcand, h2]; exact List.mem_cons_self _ _
    · rw [hcand]; exact List.mem_cons_of_mem _ h2

/-- C6: `find_best_combination` returns an empty result exactly when the
filtered input (blanks and `None` removed) is empty; every returned
combination has a non-empty dice list, thanks to the single-highest-value
fallback candidate that makes the candidate list non-empty. -/
theorem c6_empty_iff (input : List (Option Int)) :
    (find_combos input = [] ↔ diceValues input = []) ∧
    ∀ c ∈ find_combos input, c.dice ≠ [] := by
  constructor
  · constructor
    · intro hempty
      by_contra h
      obtain ⟨c0, cs, -, hf⟩ := find_combos_eq input h
      rw [hf] at hempty
      simp at hempty
    · intro h
      rw [find_combos, if_pos (by rw [List.isEmpty_iff]; exact h)]
  · intro c hc
    obtain ⟨hne, hcand⟩ := find_combos_mem_candidates input c hc
    exact (candidatesOf_dice_spec _ c hne hcand).1

theorem c6_empty_iff_witness :
    (find_combos [some 3] = [] ↔ diceValues [some 3] = []) ∧
    (mkCombo "Solid" [3] 0).dice ≠ [] ∧
    (find_combos [none, some (-1)] = [] ↔ diceValues [none, some (-1)] = []) :=
  ⟨(c6_empty_iff [some 3]).1,
   (c6_empty_iff [some 3]).2 (mkCombo "Solid" [3] 0) (by decide),
   (c6_empty_iff [none, some (-1)]).1⟩

/-- C10: a die that cannot roll (a blank die) contributes the sentinel `-1`
to the values returned by `roll_dice`, and `find_combos` filters out every
`-1` and `None` entry before generating candidates, so the dice values of a
returned combination always come from the filtered input — in particular no
returned combination ever contains the blank sentinel `-1`. -/
theorem c10_blanks_filtered :
    (∀ (rng : Nat → Nat) (n : Nat) (dice : List Die),
      (roll_dice rng n dice).1.length = dice.length ∧
      ∀ i (h1 : i < dice.length), (dice.get ⟨i, h1⟩).canRoll = false →
        (roll_dice rng n dice).1.getD i none = some (-1)) ∧
    (∀ (input : List (Option Int)) (c : Combo), c ∈ find_combos input →
      ∀ v ∈ c.dice, v ∈ diceValues input ∧ v ≠ -1) := by
  constructor
  · intro rng n dice
    induction dice generalizing n with
    | nil => exact ⟨rfl, fun i h1 => absurd h1 (by simp)⟩
    | cons d rest ih =>
      by_cases hroll : d.canRoll
      · have hd : roll_dice rng n (d :: rest) =
            ((d.roll rng n).2.1 :: (roll_dice rng (d.roll rng n).2.2 rest).1,
             (d.roll rng n).1 :: (roll_dice rng (d.roll rng n).2.2 rest).2.1,
             (roll_dice rng (d.roll rng n).2.2 rest).2.2) := by
          rw [roll_dice, if_pos hroll]
        obtain ⟨ihlen, ihblank⟩ := ih (d.roll rng n).2.2
        constructor
        · rw [hd]
          simpa using ihlen
        · intro i h1 hblank
          match i with
          | 0 => exact absurd (by simpa using hblank) (by simp [hroll])
          | i + 1 =>
            rw [hd]
            simpa using ihblank i (by simpa using h1) (by simpa using hblank)
      · have hd : roll_dice rng n (d :: rest) =
            (some (-1) :: (roll_dice rng n rest).1,
             d :: (roll_dice rng n rest).2.1,
             (roll_dice rng n rest).2.2) := by
          rw [roll_dice, if_neg hroll]
        obtain ⟨ihlen, ihblank⟩ := ih n
        constructor
        · rw [hd]
          simpa using ihlen
        · intro i h1 hblank
          match i with
          | 0 => rw [hd]; rfl
          | i + 1 =>
            rw [hd]
            simpa using ihblank i (by simpa using h1) (by simpa using hblank)
  · intro input c hc v hv
    obtain ⟨hne, hcand⟩ := find_combos_mem_candidates input c hc
    have hmem := (candidatesOf_dice_spec _ c hne hcand).2 v hv
    refine ⟨hmem, ?_⟩
    rw [diceValues, List.mem_filter] at hmem
    simpa using hmem.2

theorem c10_blanks_filtered_witness :
    ((roll_dice rngZero 0 [specialDie 2,
        ⟨DieKind.blank, "Blank", [some (-1)], none, none⟩]).1.length = 2 ∧
      (roll_dice rngZero 0 [specialDie 2,
        ⟨DieKind.blank, "Blank", [some (-1)], none, none⟩]).1.getD 1 none = some (-1)) ∧
    ((2 : Int) ∈ diceValues [some 2, some (-1)] ∧ (2 : Int) ≠ -1) := by
  refine ⟨⟨(c10_blanks_filtered.1 rngZero 0 _).1, ?_⟩, ?_⟩
  · exact (c10_blanks_filtered.1 rngZero 0 _).2 1 (by decide) (by decide)
  · exact c10_blanks_filtered.2 [some 2, some (-1)] (mkCombo "Solid" [2] 0)
      (by decide) 2 (by decide)

/-- C1 counterexample: for attacker values `[1,3,5]` and defender values
`[2,2,6]`, the damage resolver does not return 0 (a value of 2 cannot block
the attacker value 3, so the 5 goes unblocked). -/
theorem c1_counterexample :
    calculate_damage [mkCombo "Solid" [1, 3, 5] 0] [mkCombo "Solid" [2, 2, 6] 0] ≠ 0 := by
  decide

/-- C1 (amended): for attacker values `[1,3,5]` and defender values `[2,2,6]`
the resolver returns unblocked damage 5 — the 1 is blocked by the first 2,
the second 2 (strictly below 3) is skipped permanently, the 3 is blocked by
the 6, and the 5 is unblocked. -/
theorem c1_amended :
    calculate_damage [mkCombo "Solid" [1, 3, 5] 0] [mkCombo "Solid" [2, 2, 6] 0] = 5 ∧
    resolve_damage [1, 3, 5] [2, 2, 6] = 5 := by
  decide

theorem dam_aux_nil_def (a : Int) (as : List Int) :
    dam_aux (a :: as) [] = a + dam_aux as [] := rfl

theorem dam_aux_skip {d a : Int} (as ds : List Int) (h : d < a) :
    dam_aux (a :: as) (d :: ds) = dam_aux (a :: as) ds := by
  conv_lhs => rw [dam_aux]
  conv_rhs => rw [dam_aux]
  rw [List.dropWhile_cons_of_pos (by simpa using h)]

theorem dam_aux_block {d a : Int} (as ds : List Int) (h : ¬ d < a) :
    dam_aux (a :: as) (d :: ds) = dam_aux as ds := by
  conv_lhs => rw [dam_aux]
  rw [List.dropWhile_cons_of_neg (by simpa using h)]

/-- Joint monotonicity of the greedy sweep, by strong induction on the total
length: prepending a defender never increases the unblocked damage, and
prepending a non-negative attacker never decreases it (attacker values must
be non-negative, as die values are). -/
theorem dam_mono_aux : ∀ (N : Nat) (A D : List Int), A.length + D.length ≤ N →
    (∀ x ∈ A, (0:ℤ) ≤ x) →
    ((∀ d, dam_aux A (d :: D) ≤ dam_aux A D) ∧
     (∀ a, 0 ≤ a → dam_aux A D ≤ dam_aux (a :: A) D)) := by
  intro N
  induction N with
  | zero =>
    intro A D hlen hA
    have hA0 : A = [] := by
      cases A
      · rfl
      · simp at hlen
    have hD0 : D = [] := by
      cases D
      · rfl
      · rw [hA0] at hlen; simp at hlen
    subst hA0; subst hD0
    constructor
    · intro d; simp [dam_aux]
    · intro a ha
      rw [dam_aux_nil_def]
      show dam_aux [] [] ≤ a + dam_aux [] []
      simp [dam_aux]
      linarith
  | succ N ih =>
    intro A D hlen hA
    constructor
    · intro d
      cases A with
      | nil => simp [dam_aux]
      | cons a as =>
        by_cases hda : d < a
        · rw [dam_aux_skip as D hda]
        · rw [dam_aux_block as D hda]
          have hsub : as.length + D.length ≤ N := by
            simp only [List.length_cons] at hlen; omega
          exact (ih as D hsub
              (fun x hx => hA x (List.mem_cons_of_mem _ hx))).2 a
            (hA a (List.mem_cons_self _ _))
    · intro a ha
      cases D with
      | nil =>
        rw [dam_aux_nil_def]
        linarith
      | cons d ds =>
        have hsub : A.length + ds.length ≤ N := by
          simp only [List.length_cons] at hlen; omega
        by_cases hda : d < a
        · rw [dam_aux_skip A ds hda]
          calc dam_aux A (d :: ds) ≤ dam_aux A ds := (ih A ds hsub hA).1 d
            _ ≤ dam_aux (a :: A) ds := (ih A ds hsub hA).2 a ha
        · rw [dam_aux_block A ds hda]
          exact (ih A ds hsub hA).1 d

theorem dam_aux_tail_def (X Y : List Int)
    (h : ∀ A, (∀ x ∈ A, (0:ℤ) ≤ x) → dam_aux A X ≤ dam_aux A Y) (d : Int) :
    ∀ A, (∀ x ∈ A, (0:ℤ) ≤ x) → dam_aux A (d :: X) ≤ dam_aux A (d :: Y) := by
  intro A hA
  cases A with
  | nil => simp [dam_aux]
  | cons a as =>
    by_cases hda : d < a
    · rw [dam_aux_skip as X hda, dam_aux_skip as Y hda]
      exact h (a :: as) hA
    · rw [dam_aux_block as X hda, dam_aux_block as Y hda]
      exact h as (fun x hx => hA x (List.mem_cons_of_mem _ hx))

/-- Inserting one defender value (in sorted position) never increases the
unblocked damage. -/
theorem dam_aux_insert_def (v : Int) :
    ∀ (D A : List Int), (∀ x ∈ A, (0:ℤ) ≤ x) →
      dam_aux A (List.orderedInsert (· ≤ ·) v D) ≤ dam_aux A D := by
  intro D
  induction D with
  | nil =>
    intro A hA
    rw [List.orderedInsert]
    exact (dam_mono_aux A.length A [] (by simp) hA).1 v
  | cons d ds ih =>
    intro A hA
    rw [List.orderedInsert]
    by_cases hvd : v ≤ d
    · rw [if_pos hvd]
      exact (dam_mono_aux (A.length + (d :: ds).length) A (d :: ds) (by simp) hA).1 v
    · rw [if_neg hvd]
      exact dam_aux_tail_def (List.orderedInsert _ v ds) ds
        (fun A2 hA2 => ih A2 hA2) d A hA

theorem dam_aux_tail_att (X Y : List Int) (h : ∀ D, dam_aux X D ≤ dam_aux Y D)
    (a : Int) : ∀ D, dam_aux (a :: X) D ≤ dam_aux (a :: Y) D := by
  intro D
  induction D with
  | nil =>
    rw [dam_aux_nil_def, dam_aux_nil_def]
    have := h []
    linarith
  | cons d ds ihd =>
    by_cases hda : d < a
    · rw [dam_aux_skip X ds hda, dam_aux_skip Y ds hda]
      exact ihd
    · rw [dam_aux_block X ds hda, dam_aux_block Y ds hda]
      exact h ds

/-- Inserting one non-negative attacker value (in sorted position) never
decreases the unblocked damage. -/
theorem dam_aux_insert_att (v : Int) (hv : 0 ≤ v) :
    ∀ (A : List Int), (∀ x ∈ A, (0:ℤ) ≤ x) →
      ∀ D, dam_aux A D ≤ dam_aux (List.orderedInsert (· ≤ ·) v A) D := by
  intro A
  induction A with
  | nil =>
    intro hA D
    rw [List.orderedInsert]
    exact (dam_mono_aux D.length [] D (by simp) (by simp)).2 v hv
  | cons a as ih =>
    intro hA D
    rw [List.orderedInsert]
    by_cases hva : v ≤ a
    · rw [if_pos hva]
      exact (dam_mono_aux ((a :: as).length + D.length) (a :: as) D (by simp) hA).2 v hv
    · rw [if_neg hva]
      exact dam_aux_tail_att as (List.orderedInsert _ v as)
        (ih (fun x hx => hA x (List.mem_cons_of_mem _ hx))) a D

/-- Sorting a list with one value inserted anywhere equals the ordered
insertion of that value into the sorted remainder. -/
theorem insertionSort_insert_middle (v : Int) (l₁ l₂ : List Int) :
    (l₁ ++ v :: l₂).insertionSort (· ≤ ·) =
      List.orderedInsert (· ≤ ·) v ((l₁ ++ l₂).insertionSort (· ≤ ·)) := by
  apply List.eq_of_perm_of_sorted (r := (· ≤ ·))
  · exact (List.perm_insertionSort _ _).trans
      (List.perm_middle.trans
        ((List.Perm.cons _ (List.perm_insertionSort _ _).symm).trans
          (List.perm_orderedInsert _ _ _).symm))
  · exact List.sorted_insertionSort _ _
  · exact List.Sorted.orderedInsert _ _ (List.sorted_insertionSort _ _)

/-- C5: `resolve_damage` (the body of `calculate_damage`) is monotonic over
lists of die values (non-negative): adding one more defender value anywhere
never increases the unblocked damage, and adding one more attacker value
anywhere never decreases it. -/
theorem c5_resolve_monotonic (A₁ A₂ D₁ D₂ : List Int) (v : Int)
    (hA : ∀ x ∈ A₁ ++ A₂, (0:ℤ) ≤ x) (hv : 0 ≤ v) :
    resolve_damage (A₁ ++ A₂) (D₁ ++ v :: D₂) ≤
      resolve_damage (A₁ ++ A₂) (D₁ ++ D₂) ∧
    resolve_damage (A₁ ++ A₂) (D₁ ++ D₂) ≤
      resolve_damage (A₁ ++ v :: A₂) (D₁ ++ D₂) := by
  have hsA : ∀ x ∈ (A₁ ++ A₂).insertionSort (· ≤ ·), (0:ℤ) ≤ x :=
    fun x hx => hA x ((List.perm_insertionSort _ _).mem_iff.1 hx)
  constructor
  · rw [resolve_damage, resolve_damage, insertionSort_insert_middle]
    exact dam_aux_insert_def v _ _ hsA
  · rw [resolve_damage, resolve_damage, insertionSort_insert_middle]
    exact dam_aux_insert_att v hv _ hsA _

theorem c5_resolve_monotonic_witness :
    resolve_damage ([1] ++ [3]) ([2] ++ 4 :: []) ≤ resolve_damage ([1] ++ [3]) ([2] ++ []) ∧
    resolve_damage ([1] ++ [3]) ([2] ++ []) ≤ resolve_damage ([1] ++ 4 :: [3]) ([2] ++ []) :=
  c5_resolve_monotonic [1] [3] [2] [] 4 (by decide) (by decide)

/-- C7: starting from any health in `[0, MAX_HEALTH]`, every sequence of
`take_damage` / `heal` calls with non-negative amounts keeps the health in
`[0, MAX_HEALTH]` after each mutation (every prefix of the sequence). -/
theorem c7_health_bounds (p : Player) (ops : List HealthOp) (k : Nat)
    (h0 : 0 ≤ p.health) (h1 : p.health ≤ MAX_HEALTH)
    (hops : ∀ op ∈ ops, 0 ≤ op.amount) :
    0 ≤ (applyHealthOps p (ops.take k)).health ∧
    (applyHealthOps p (ops.take k)).health ≤ MAX_HEALTH := by
  induction ops generalizing p k with
  | nil =>
    rw [List.take_nil]
    exact ⟨h0, h1⟩
  | cons op rest ih =>
    cases k with
    | zero =>
      rw [List.take_zero]
      exact ⟨h0, h1⟩
    | succ k =>
      rw [List.take_succ_cons]
      have hop : 0 ≤ op.amount := hops op (List.mem_cons_self _ _)
      have hbounds : 0 ≤ (applyHealthOp p op).health ∧
          (applyHealthOp p op).health ≤ MAX_HEALTH := by
        cases op with
        | damage a =>
          simp only [applyHealthOp, Player.take_damage, HealthOp.amount,
            MAX_HEALTH] at *
          omega
        | heal a =>
          simp only [applyHealthOp, Player.heal, HealthOp.amount, MAX_HEALTH] at *
          omega
      have hrec := ih (applyHealthOp p op) k hbounds.1 hbounds.2
        (fun o ho => hops o (List.mem_cons_of_mem _ ho))
      simpa [applyHealthOps] using hrec

theorem c7_health_bounds_witness :
    0 ≤ (applyHealthOps { name := "P", health := 7 }
        ([HealthOp.damage 9, HealthOp.heal 20, HealthOp.damage 1].take 3)).health ∧
    (applyHealthOps { name := "P", health := 7 }
        ([HealthOp.damage 9, HealthOp.heal 20, HealthOp.damage 1].take 3)).health ≤
      MAX_HEALTH :=
  c7_health_bounds { name := "P", health := 7 }
    [HealthOp.damage 9, HealthOp.heal 20, HealthOp.damage 1] 3
    (by decide) (by decide) (by decide)

/-- C8: on a fumble, the held regret tokens convert 1:1 into immediate
self-damage (clamped at the available health) and the regret count resets to
zero, and the fumbled round banks no combinations; in particular the player
`catWithRegret` (3 regret tokens, health 12) who fumbles takes 3 damage and
ends the round with 0 regret tokens. -/
theorem c8_fumble_penalty :
    (∀ p : Player, 0 ≤ p.regret_tokens → 0 ≤ p.health →
      (applyFumblePenalty p).regret_tokens = 0 ∧
      (applyFumblePenalty p).health = p.health - min p.regret_tokens p.health) ∧
    (∀ nm, (fumbledRoundResult nm).insults = [] ∧
      (fumbledRoundResult nm).fumbled = true) ∧
    ((applyFumblePenalty catWithRegret).health = 9 ∧
     (applyFumblePenalty catWithRegret).regret_tokens = 0 ∧
     (play_debate_round rngZero 0 catWithRegret allOnesOpponent
        ArchKind.base ArchKind.base).1.fumbled = true ∧
     (play_debate_round rngZero 0 catWithRegret allOnesOpponent
        ArchKind.base ArchKind.base).1.insults = [] ∧
     (play_debate_round rngZero 0 catWithRegret allOnesOpponent
        ArchKind.base ArchKind.base).2.2.1.regret_tokens = 0) := by
  refine ⟨?_, fun nm => ⟨rfl, rfl⟩, by decide⟩
  intro p hr hh
  rw [applyFumblePenalty]
  by_cases hpos : p.regret_tokens > 0
  · rw [if_pos hpos]
    simp [Player.take_damage]
  · rw [if_neg hpos]
    have hr0 : p.regret_tokens = 0 := le_antisymm (by omega) hr
    constructor
    · exact hr0
    · rw [hr0]
      omega

theorem c8_fumble_penalty_witness :
    0 ≤ catWithRegret.regret_tokens ∧
    ((applyFumblePenalty catWithRegret).regret_tokens = 0 ∧
     (applyFumblePenalty catWithRegret).health =
       catWithRegret.health - min catWithRegret.regret_tokens catWithRegret.health) :=
  ⟨by decide, c8_fumble_penalty.1 catWithRegret (by decide) (by decide)⟩

theorem bankLoopAux_le : ∀ (fuel : Nat) (st : BankState),
    st.insults.length ≤ 1 → (bankLoopAux fuel st).insults.length ≤ 2 := by
  intro fuel
  induction fuel with
  | zero => intro st h; rw [bankLoopAux]; omega
  | succ fuel ih =>
    intro st h
    rw [bankLoopAux]
    cases hfind : bankFindBest st.live_dice with
    | none =>
      show st.insults.length ≤ 2
      omega
    | some best =>
      show (if 2 ≤ (bankOnce st best).insults.length ∨
          (bankOnce st best).live_dice.length < 4
        then bankOnce st best else bankLoopAux fuel (bankOnce st best)).insults.length ≤ 2
      have hlen : (bankOnce st best).insults.length = st.insults.length + 1 :=
        bankOnce_insults_length st best
      by_cases hstop : 2 ≤ (bankOnce st best).insults.length ∨
          (bankOnce st best).live_dice.length < 4
      · rw [if_pos hstop]; omega
      · rw [if_neg hstop]
        exact ih (bankOnce st best) (by omega)

theorem bankLoopAux_exit : ∀ (fuel : Nat) (st : BankState),
    2 ≤ fuel + st.insults.length →
    2 ≤ (bankLoopAux fuel st).insults.length ∨
    bankFindBest (bankLoopAux fuel st).live_dice = none ∨
    (bankLoopAux fuel st).live_dice.length < 4 := by
  intro fuel
  induction fuel with
  | zero => intro st h; rw [bankLoopAux]; omega
  | succ fuel ih =>
    intro st h
    rw [bankLoopAux]
    cases hfind : bankFindBest st.live_dice with
    | none =>
      show 2 ≤ st.insults.length ∨ bankFindBest st.live_dice = none ∨
        st.live_dice.length < 4
      exact Or.inr (Or.inl hfind)
    | some best =>
      show 2 ≤ (if 2 ≤ (bankOnce st best).insults.length ∨
            (bankOnce st best).live_dice.length < 4
          then bankOnce st best else bankLoopAux fuel (bankOnce st best)).insults.length ∨
        bankFindBest (if 2 ≤ (bankOnce st best).insults.length ∨
            (bankOnce st best).live_dice.length < 4
          then bankOnce st best else bankLoopAux fuel (bankOnce st best)).live_dice = none ∨
        (if 2 ≤ (bankOnce st best).insults.length ∨
            (bankOnce st best).live_dice.length < 4
          then bankOnce st best else bankLoopAux fuel (bankOnce st best)).live_dice.length < 4
      have hlen : (bankOnce st best).insults.length = st.insults.length + 1 :=
        bankOnce_insults_length st best
      by_cases hstop : 2 ≤ (bankOnce st best).insults.length ∨
          (bankOnce st best).live_dice.length < 4
      · rw [if_pos hstop]
        rcases hstop with hstop | hstop
        · exact Or.inl hstop
        · exact Or.inr (Or.inr hstop)
      · rw [if_neg hstop]
        exact ih (bankOnce st best) (by omega)

theorem applyHumorEffect_insults_length (rng : Nat → Nat) (st : CommitState)
    (h : String) :
    (applyHumorEffect rng st h).insults.length = st.insults.length := by
  rw [applyHumorEffect]
  by_cases h1 : h = "sanguine"
  · rw [if_pos h1]
  · rw [if_neg h1]
    by_cases h2 : h = "melancholic"
    · rw [if_pos h2]
    · rw [if_neg h2]
      by_cases h3 : h = "phlegmatic"
      · rw [if_pos h3]
        cases findPhlegmatic st.insult_sources with
        | none => rfl
        | some cisid =>
          simp only []
          cases st.insults.get? cisid.1 with
          | none => rfl
          | some c => simp [List.length_set]
      · rw [if_neg h3]
        by_cases h4 : h = "choleric"
        · rw [if_pos h4]
        · rw [if_neg h4]

theorem commitFold_insults_length (rng : Nat → Nat) :
    ∀ (chosen : List (String × Int)) (cst : CommitState),
      (chosen.foldl (fun s hv => applyHumorEffect rng s hv.1) cst).insults.length =
        cst.insults.length := by
  intro chosen
  induction chosen with
  | nil => intro cst; rfl
  | cons hv rest ih =>
    intro cst
    rw [List.foldl_cons, ih, applyHumorEffect_insults_length]

theorem bankCommitState_insults_length (rng : Nat → Nat) (n : Nat)
    (arch : ArchKind) (st : BankState) :
    (bankCommitState rng n arch st).insults.length = st.insults.length := by
  simp only [bankCommitState]
  split
  · rw [commitFold_insults_length]
  · rfl

/-- C9: the banking loop stops exactly when two combinations have been
banked, fewer than four live values remain, or no combination can be found;
starting from an empty banked list it banks at most two combinations, and
every call of the banking engine returns a round result with at most two
banked combinations. -/
theorem c9_bank_at_most_two :
    (∀ st : BankState, st.insults = [] → (bankLoop st).insults.length ≤ 2) ∧
    (∀ st : BankState,
      2 ≤ (bankLoop st).insults.length ∨
      bankFindBest (bankLoop st).live_dice = none ∨
      (bankLoop st).live_dice.length < 4 ∨
      2 ≤ st.insults.length) ∧
    (∀ (rng : Nat → Nat) (n : Nat) (player : Player) (arch : ArchKind)
        (pool : List PoolEntry),
      (bank_from_live_pool rng n player arch pool).1.insults_banked_count ≤ 2 ∧
      (bank_from_live_pool rng n player arch pool).1.insults.length ≤ 2) := by
  have hle : ∀ st : BankState, st.insults = [] → (bankLoop st).insults.length ≤ 2 := by
    intro st h
    exact bankLoopAux_le _ st (by rw [h]; simp)
  refine ⟨hle, ?_, ?_⟩
  · intro st
    by_cases h2 : 2 ≤ st.insults.length
    · exact Or.inr (Or.inr (Or.inr h2))
    · have := bankLoopAux_exit (2 - st.insults.length) st (by omega)
      rw [bankLoop]
      rcases this with h | h | h
      · exact Or.inl h
      · exact Or.inr (Or.inl h)
      · exact Or.inr (Or.inr (Or.inl h))
  · intro rng n player arch pool
    have hloop : (bankLoop ⟨player, pool, pool.map Prod.fst, [], [], false,
        {}⟩).insults.length ≤ 2 :=
      hle _ rfl
    have hlen : (bank_from_live_pool rng n player arch pool).1.insults.length =
        (bankLoop ⟨player, pool, pool.map Prod.fst, [], [], false,
          {}⟩).insults.length := by
      show (bankCommitState rng n arch _).insults.length = _
      rw [bankCommitState_insults_length]
    have hcnt : (bank_from_live_pool rng n player arch pool).1.insults_banked_count =
        (bank_from_live_pool rng n player arch pool).1.insults.length := rfl
    constructor
    · rw [hcnt, hlen]; exact hloop
    · rw [hlen]; exact hloop

theorem c9_bank_at_most_two_witness :
    (bankLoop ⟨allOnesOpponent, [], [], [], [], false, {}⟩).insults.length ≤ 2 :=
  c9_bank_at_most_two.1 ⟨allOnesOpponent, [], [], [], [], false, {}⟩ rfl

/-- C2 (code evaluation): in a round where neither player fumbles, the token
block is skipped — `onesWithNeurosis` keeps its neurosis token and full
health — while in a round where both players fumble the token block runs and
consumes the token with 1 self-damage.  The source places the cascade inside
the both-fumbled `else` branch, the opposite of the claimed condition. -/
theorem c2_cascade_misplaced :
    ((play_debate_round rngZero 0 onesWithNeurosis allOnesOpponent
        ArchKind.base ArchKind.base).1.fumbled = false ∧
     (play_debate_round rngZero 0 onesWithNeurosis allOnesOpponent
        ArchKind.base ArchKind.base).2.1.fumbled = false ∧
     (play_debate_round rngZero 0 onesWithNeurosis allOnesOpponent
        ArchKind.base ArchKind.base).2.2.1.health = 12 ∧
     (play_debate_round rngZero 0 onesWithNeurosis allOnesOpponent
        ArchKind.base ArchKind.base).2.2.1.neurosis_tokens = 1) ∧
    ((play_debate_round rngZero 0 catWithNeurosis catOpponent
        ArchKind.base ArchKind.base).1.fumbled = true ∧
     (play_debate_round rngZero 0 catWithNeurosis catOpponent
        ArchKind.base ArchKind.base).2.1.fumbled = true ∧
     (play_debate_round rngZero 0 catWithNeurosis catOpponent
        ArchKind.base ArchKind.base).2.2.1.health = 11 ∧
     (play_debate_round rngZero 0 catWithNeurosis catOpponent
        ArchKind.base ArchKind.base).2.2.1.neurosis_tokens = 0) := by
  decide

/-- C3 (code evaluation): a debate that ends by knockout returns with the
winner's neurosis and forgiveness tokens unchanged (5 and 2 here) because the
clearing code only runs on the round-cap path, where the tokens are indeed
reset to zero. -/
theorem c3_tokens_survive_knockout :
    ((play_debate rngZero allSixesPlayer ArchKind.base allOnesOpponent
        ArchKind.base 5).1.winner = "P1" ∧
     (play_debate rngZero allSixesPlayer ArchKind.base allOnesOpponent
        ArchKind.base 5).2.2.health = 0 ∧
     (play_debate rngZero allSixesPlayer ArchKind.base allOnesOpponent
        ArchKind.base 5).2.1.neurosis_tokens = 5 ∧
     (play_debate rngZero allSixesPlayer ArchKind.base allOnesOpponent
        ArchKind.base 5).2.1.forgiveness_tokens = 2) ∧
    ((play_debate rngZero onesWithNeurosis ArchKind.base allOnesOpponent
        ArchKind.base 5).1.winner = "Tie" ∧
     (play_debate rngZero onesWithNeurosis ArchKind.base allOnesOpponent
        ArchKind.base 5).2.1.neurosis_tokens = 0 ∧
     (play_debate rngZero onesWithNeurosis ArchKind.base allOnesOpponent
        ArchKind.base 5).2.1.forgiveness_tokens = 0) := by
  decide
